import Mathlib

/-!
Shallow embedding of the Tic-Tac-Toe game core found in
`src/tic_tac_toe_frontend/src/App.js`, together with theorems checking the
specification's claims about it.

Modelling conventions:
* A JS cell value (`'X'`, `'O'`, `null`) becomes `Option Mark`, with `none`
  for `null`/`undefined` (both are falsy in the JS guards).
* A JS board array becomes `List (Option Mark)`; reading `squares[i]` becomes
  `List.getD i none` (an out-of-range read yields `undefined`, which behaves
  like `null` in every guard of this program), and writing `arr[i] = v`
  becomes `setJS`, which extends the array with holes when `i` is past the
  end, exactly as JS assignment does.
* The React component state (`board`, `xIsNext`, `mode`, `isGameOver`) becomes
  the structure `AppState`.  `useEffect` passes are modelled by `effectsStep`:
  both effects read the snapshot of the commit they run in (state setters only
  take effect in the next render), and they run in declaration order.
-/

namespace TicTacToe

/-- A player mark: the JS strings `'X'` and `'O'`. -/
inductive Mark
  | X
  | O
deriving DecidableEq, Repr, Fintype

/-- A board cell: `none` is the JS `null` (or `undefined`) empty cell. -/
abbrev Cell := Option Mark

/-- A board: the JS array of cells, indexed 0..8 row-major. -/
abbrev Board := List Cell

/-- The game mode strings `'pvp'` / `'pvc'`. -/
inductive Mode
  | pvp
  | pvc
deriving DecidableEq, Repr

/-- The `WIN_LINES` constant of App.js: 3 rows, 3 columns, 2 diagonals. -/
def WIN_LINES : List (Nat × Nat × Nat) :=
  [(0, 1, 2), (3, 4, 5), (6, 7, 8),
   (0, 3, 6), (1, 4, 7), (2, 5, 8),
   (0, 4, 8), (2, 4, 6)]

/-- Reading `squares[i]` in JS: out of range gives `undefined`, which every
guard of this program treats like `null`. -/
def cellAt (squares : Board) (i : Nat) : Cell := squares.getD i none

/-- The per-line test of `calculateWinner` / `getWinningLine`:
`squares[a] && squares[a] === squares[b] && squares[a] === squares[c]`. -/
def lineWins (squares : Board) (l : Nat × Nat × Nat) : Bool :=
  (cellAt squares l.1).isSome
    && (cellAt squares l.1 == cellAt squares l.2.1)
    && (cellAt squares l.1 == cellAt squares l.2.2)

/-- The `calculateWinner` function of App.js: scan `WIN_LINES` in order and return the mark
of the first line whose three cells are equal and non-empty, else `null`. -/
def calculateWinner (squares : Board) : Option Mark :=
  WIN_LINES.findSome? fun l => if lineWins squares l then cellAt squares l.1 else none

/-- The `getWinningLine` function of App.js: same scan, returning the line instead. -/
def getWinningLine (squares : Board) : Option (Nat × Nat × Nat) :=
  WIN_LINES.findSome? fun l => if lineWins squares l then some l else none

/-- The `isDraw` memo of App.js: `!winner && board.every(Boolean)`. -/
def isDraw (squares : Board) : Bool :=
  (calculateWinner squares).isNone && squares.all fun c => c.isSome

/-- The guard `!squares[i]` : the cell is empty (or out of range). -/
def emptyAt (squares : Board) (i : Nat) : Bool := (cellAt squares i).isNone

/-- JS array element assignment `arr[i] = v`: in range it overwrites, past the
end it extends the array with holes (read back as `undefined`, i.e. `none`). -/
def setJS (squares : Board) (i : Nat) (v : Cell) : Board :=
  if i < squares.length then squares.set i v
  else squares ++ List.replicate (i - squares.length) none ++ [v]

/-- The two identical scan loops of `chooseBestMove` (steps 1 and 2): first
index `i` in 0..8 with `!squares[i]` whose hypothetical board
`copy = squares.slice(); copy[i] = m` satisfies `calculateWinner(copy) === m`. -/
def findWinIdx (squares : Board) (m : Mark) : Option Nat :=
  (List.range 9).find? fun i =>
    emptyAt squares i && (calculateWinner (setJS squares i (some m)) == some m)

/-- The `chooseBestMove` function of App.js: win, block, center, first free corner in
`[0,2,6,8]`, first free side in `[1,3,5,7]`, else `-1`. -/
def chooseBestMove (squares : Board) (ai human : Mark) : Int :=
  match findWinIdx squares ai with
  | some i => Int.ofNat i
  | none =>
    match findWinIdx squares human with
    | some i => Int.ofNat i
    | none =>
      if emptyAt squares 4 then Int.ofNat 4
      else
        match [0, 2, 6, 8].filter (emptyAt squares) with
        | i :: _ => Int.ofNat i
        | [] =>
          match [1, 3, 5, 7].filter (emptyAt squares) with
          | i :: _ => Int.ofNat i
          | [] => -1

/-- The React component state of App.js. -/
structure AppState where
  board : Board
  xIsNext : Bool
  mode : Mode
  isGameOver : Bool
deriving DecidableEq, Repr

/-- The `handleCellClick` handler of App.js:
`if (isGameOver || board[index]) return;` then place the current mark and flip
`xIsNext`.  Note there is no range check on `index`. -/
def handleCellClick (s : AppState) (index : Nat) : AppState :=
  if s.isGameOver || (cellAt s.board index).isSome then s
  else
    { s with
      board := setJS s.board index (some (if s.xIsNext then Mark.X else Mark.O)),
      xIsNext := !s.xIsNext }

/-- The `restartGame` handler of App.js: empty board, X to move, game-over flag cleared;
the mode is untouched. -/
def restartGame (s : AppState) : AppState :=
  { s with board := List.replicate 9 none, xIsNext := true, isGameOver := false }

/-- The `switchMode` handler of App.js: set the mode and perform the same reset. -/
def switchMode (s : AppState) (m : Mode) : AppState :=
  { s with board := List.replicate 9 none, xIsNext := true, mode := m, isGameOver := false }

/-- The value computed by the first effect of App.js:
`setIsGameOver(Boolean(winner) || isDraw)`, with `winner` and `isDraw` the
memos derived from the rendered board. -/
def isGameOverDerived (squares : Board) : Bool :=
  (calculateWinner squares).isSome || isDraw squares

/-- The AI effect of App.js, acting on the snapshot it closed over: in `'pvc'`
mode, when the (possibly stale) `isGameOver` flag is false and it is O's turn,
play `chooseBestMove(board, 'O', 'X')` if it is not `-1`. -/
def aiEffect (s : AppState) : AppState :=
  if s.mode = Mode.pvc then
    if s.isGameOver then s
    else if !s.xIsNext then
      match chooseBestMove s.board Mark.O Mark.X with
      | Int.ofNat i =>
        { s with board := setJS s.board i (some Mark.O), xIsNext := true }
      | _ => s
    else s
  else s

/-- One passive-effect pass after a commit with snapshot `s`: both effects
read `s` (state setters only land in the next render) and run in declaration
order; the game-over effect writes the derived flag, the AI effect writes
board and turn. -/
def effectsStep (s : AppState) : AppState :=
  { aiEffect s with isGameOver := isGameOverDerived s.board }

/-- The derived game status of the spec: Won / Draw / InProgress, computed
from the board exactly as the `winner` and `isDraw` memos do. -/
inductive GameStatus
  | InProgress
  | Won (m : Mark)
  | Draw
deriving DecidableEq, Repr

/-- Status derived from a board snapshot. -/
def gameStatus (squares : Board) : GameStatus :=
  match calculateWinner squares with
  | some m => GameStatus.Won m
  | none => if isDraw squares then GameStatus.Draw else GameStatus.InProgress

/-- Spec-side notion: line `l` is fully occupied by mark `m`. -/
def fullWith (squares : Board) (l : Nat × Nat × Nat) (m : Mark) : Prop :=
  cellAt squares l.1 = some m ∧ cellAt squares l.2.1 = some m ∧ cellAt squares l.2.2 = some m

/-- Spec-side notion: line `l` is a completed three-in-a-row. -/
def lineFull (squares : Board) (l : Nat × Nat × Nat) : Prop :=
  ∃ m, fullWith squares l m

instance (squares : Board) (l : Nat × Nat × Nat) (m : Mark) :
    Decidable (fullWith squares l m) := by
  unfold fullWith; infer_instance

instance (squares : Board) (l : Nat × Nat × Nat) : Decidable (lineFull squares l) := by
  unfold lineFull; infer_instance

/-- Spec-side notion matching the scan predicate of `chooseBestMove`: cell `i`
is empty and placing `m` there makes `calculateWinner` report `m`. -/
def winningPlacement (squares : Board) (m : Mark) (i : Nat) : Prop :=
  cellAt squares i = none ∧ calculateWinner (setJS squares i (some m)) = some m

instance (squares : Board) (m : Mark) (i : Nat) :
    Decidable (winningPlacement squares m i) := by
  unfold winningPlacement; infer_instance

/-- Spec-side notion: cell `i` is empty and placing `m` there completes a
three-in-a-row for `m`, i.e. some `WIN_LINES` line through `i` becomes fully
occupied by `m`. -/
def completesLine (squares : Board) (m : Mark) (i : Nat) : Prop :=
  cellAt squares i = none ∧
    ∃ l ∈ WIN_LINES, (l.1 = i ∨ l.2.1 = i ∨ l.2.2 = i) ∧
      fullWith (setJS squares i (some m)) l m

instance (squares : Board) (m : Mark) (i : Nat) :
    Decidable (completesLine squares m i) := by
  unfold completesLine; infer_instance

/-- The state right after `switchMode('pvc')`: the start of a
player-vs-computer session. -/
def pvcStart : AppState :=
  { board := List.replicate 9 none, xIsNext := true, mode := Mode.pvc, isGameOver := false }

/-- A human click followed by two passive-effect passes, which is enough for
the state to quiesce mid-game (the AI reply lands in the first pass, the
second pass refreshes the game-over flag and the AI guard then no-ops). -/
def clickAndSettle (s : AppState) (i : Nat) : AppState :=
  effectsStep (effectsStep (handleCellClick s i))

/-- The state of the pvc session started at `pvcStart` after the human plays
0, 8, 6 (each answered by the AI) and then plays the winning move 7, before
the following effect pass runs. -/
def buggyTraceState : AppState :=
  handleCellClick (clickAndSettle (clickAndSettle (clickAndSettle pvcStart 0) 8) 6) 7

/-! ## Helper lemmas -/

/-- Boolean `lineWins` agrees with the propositional `lineFull`. -/
theorem lineWins_eq_true_iff (squares : Board) (l : Nat × Nat × Nat) :
    lineWins squares l = true ↔ lineFull squares l := by
  rcases l with ⟨a, b, c⟩
  simp only [lineWins, lineFull, fullWith, Bool.and_eq_true, beq_iff_eq,
    Option.isSome_iff_exists]
  constructor
  · rintro ⟨⟨⟨m, hm⟩, hb⟩, hc⟩
    exact ⟨m, hm, hb ▸ hm, hc ▸ hm⟩
  · rintro ⟨m, hm, hb, hc⟩
    exact ⟨⟨⟨m, hm⟩, hm.trans hb.symm⟩, hm.trans hc.symm⟩

/-- A `findSome?` scan returns the image of the unique element on which the function
is `some`. -/
theorem findSome?_eq_some_of_unique {α β : Type} {f : α → Option β} :
    ∀ (L : List α) (a : α) (b : β), a ∈ L → f a = some b →
      (∀ x ∈ L, x ≠ a → f x = none) → L.findSome? f = some b := by
  intro L
  induction L with
  | nil => intro a b h _ _; simp at h
  | cons x L ih =>
    intro a b hmem hfa hnone
    by_cases hxa : x = a
    · subst hxa
      simp [List.findSome?_cons, hfa]
    · have hfx : f x = none := hnone x (List.mem_cons_self x L) hxa
      have hmem' : a ∈ L := by
        rcases List.mem_cons.mp hmem with h | h
        · exact absurd h.symm hxa
        · exact h
      simp only [List.findSome?_cons, hfx]
      exact ih a b hmem' hfa fun y hy hya => hnone y (List.mem_cons_of_mem _ hy) hya

/-- A `find?` scan returns the unique element satisfying the predicate. -/
theorem find?_eq_some_of_unique {α : Type} {p : α → Bool} :
    ∀ (L : List α) (a : α), a ∈ L → p a = true →
      (∀ x ∈ L, p x = true → x = a) → L.find? p = some a := by
  intro L
  induction L with
  | nil => intro a h _ _; simp at h
  | cons x L ih =>
    intro a hmem hpa huniq
    by_cases hpx : p x = true
    · have : x = a := huniq x (List.mem_cons_self x L) hpx
      subst this
      exact List.find?_cons_of_pos _ hpx
    · have hxa : x ≠ a := fun h => hpx (h ▸ hpa)
      have hmem' : a ∈ L := by
        rcases List.mem_cons.mp hmem with h | h
        · exact absurd h.symm hxa
        · exact h
      rw [List.find?_cons_of_neg _ (by simpa using hpx)]
      exact ih a hmem' hpa fun y hy hpy => huniq y (List.mem_cons_of_mem _ hy) hpy

/-- A `find?` over `List.range n` returns the least index satisfying the
predicate: everything below the hit is a miss. -/
theorem range_find?_min {p : Nat → Bool} :
    ∀ {n j : Nat}, (List.range n).find? p = some j → ∀ k, k < j → p k = false := by
  intro n
  induction n with
  | zero => intro j h; simp [List.range_zero] at h
  | succ n ih =>
    intro j h k hk
    rw [List.range_succ, List.find?_append] at h
    cases hfd : (List.range n).find? p with
    | some j0 =>
      rw [hfd] at h
      simp only [Option.or_some, Option.some.injEq] at h
      exact ih (h ▸ hfd) k hk
    | none =>
      rw [hfd] at h
      simp only [Option.none_or] at h
      have hnone := List.find?_eq_none.mp hfd
      have hj : j = n := by
        have hmem := List.mem_of_find?_eq_some h
        simpa using hmem
      have hkmem : k ∈ List.range n := List.mem_range.mpr (hj ▸ hk)
      exact Bool.eq_false_iff.mpr (hnone k hkmem)

/-- Reading a cell in range is plain list indexing. -/
theorem cellAt_of_lt {squares : Board} {i : Nat} (h : i < squares.length) :
    cellAt squares i = squares[i] := by
  simp [cellAt, List.getD_eq_getElem?_getD, List.getElem?_eq_getElem h]

/-- Writing `setJS` in range is `List.set`. -/
theorem setJS_of_lt {squares : Board} {i : Nat} (h : i < squares.length) (v : Cell) :
    setJS squares i v = squares.set i v := by
  simp [setJS, h]

/-- The boolean scan predicate of `findWinIdx` agrees with `winningPlacement`. -/
theorem scanPred_iff (squares : Board) (m : Mark) (i : Nat) :
    (emptyAt squares i && (calculateWinner (setJS squares i (some m)) == some m)) = true ↔
      winningPlacement squares m i := by
  simp [emptyAt, winningPlacement, Bool.and_eq_true, beq_iff_eq,
    Option.isNone_iff_eq_none]

/-- The generic agreement between the two evaluator scans, proved over an
arbitrary line list by induction. -/
theorem scans_agree (squares : Board) :
    ∀ L : List (Nat × Nat × Nat),
      ((L.findSome? fun l => if lineWins squares l then some l else none) = none ↔
        (L.findSome? fun l => if lineWins squares l then cellAt squares l.1 else none) = none) ∧
      (∀ (m : Mark) (l : Nat × Nat × Nat),
        (L.findSome? fun l => if lineWins squares l then cellAt squares l.1 else none) = some m →
        (L.findSome? fun l => if lineWins squares l then some l else none) = some l →
        l ∈ L ∧ fullWith squares l m) := by
  intro L
  induction L with
  | nil => simp
  | cons x L ih =>
    by_cases hx : lineWins squares x
    · obtain ⟨mx, hmx⟩ := (lineWins_eq_true_iff squares x).mp hx
      have hcell : cellAt squares x.1 = some mx := hmx.1
      constructor
      · simp [List.findSome?_cons, hx, hcell]
      · intro m l hm hl
        simp only [List.findSome?_cons, hx, if_true, hcell] at hm hl
        simp only [Option.some.injEq] at hm hl
        refine ⟨by simp [← hl], ?_⟩
        rw [← hl, ← hm]
        exact hmx
    · have hx' : lineWins squares x = false := Bool.eq_false_iff.mpr hx
      constructor
      · simp only [List.findSome?_cons, hx', if_false]
        exact ih.1
      · intro m l hm hl
        simp only [List.findSome?_cons, hx', if_false] at hm hl
        obtain ⟨hmem, hfull⟩ := ih.2 m l hm hl
        exact ⟨List.mem_cons_of_mem _ hmem, hfull⟩

/-- C1: on any 9-cell board with no completed three-in-a-row line, both
evaluator functions report no winner; and on any 9-cell board where exactly
one `WIN_LINES` line is fully occupied by a single mark, `calculateWinner`
reports that mark and `getWinningLine` that exact line. -/
theorem evaluator_reports_unique_win (squares : Board) (_h9 : squares.length = 9) :
    ((∀ l ∈ WIN_LINES, ¬ lineFull squares l) →
      calculateWinner squares = none ∧ getWinningLine squares = none) ∧
    (∀ lw ∈ WIN_LINES, ∀ m : Mark, fullWith squares lw m →
      (∀ l ∈ WIN_LINES, lineFull squares l → l = lw) →
      calculateWinner squares = some m ∧ getWinningLine squares = some lw) := by
  constructor
  · intro hnone
    have hzero : ∀ l ∈ WIN_LINES, lineWins squares l = false := by
      intro l hl
      exact Bool.eq_false_iff.mpr fun ht => hnone l hl ((lineWins_eq_true_iff squares l).mp ht)
    constructor
    · rw [calculateWinner, List.findSome?_eq_none_iff]
      intro l hl
      simp [hzero l hl]
    · rw [getWinningLine, List.findSome?_eq_none_iff]
      intro l hl
      simp [hzero l hl]
  · intro lw hlw m hfull huniq
    have hwin : lineWins squares lw = true :=
      (lineWins_eq_true_iff squares lw).mpr ⟨m, hfull⟩
    have hother : ∀ l ∈ WIN_LINES, l ≠ lw → lineWins squares l = false := by
      intro l hl hne
      exact Bool.eq_false_iff.mpr fun ht =>
        hne (huniq l hl ((lineWins_eq_true_iff squares l).mp ht))
    constructor
    · rw [calculateWinner]
      refine findSome?_eq_some_of_unique WIN_LINES lw m hlw ?_ ?_
      · simp [hwin, hfull.1]
      · intro l hl hne
        simp [hother l hl hne]
    · rw [getWinningLine]
      refine findSome?_eq_some_of_unique WIN_LINES lw lw hlw ?_ ?_
      · simp [hwin]
      · intro l hl hne
        simp [hother l hl hne]

/-- Witness for `evaluator_reports_unique_win` at scenario 5 of the spec:
`[A,A,A,Empty,B,Empty,Empty,B,Empty]` has exactly one full line. -/
theorem evaluator_reports_unique_win_witness :
    calculateWinner
        [some Mark.X, some Mark.X, some Mark.X, none, some Mark.O, none, none, some Mark.O, none] =
      some Mark.X ∧
    getWinningLine
        [some Mark.X, some Mark.X, some Mark.X, none, some Mark.O, none, none, some Mark.O, none] =
      some (0, 1, 2) :=
  (evaluator_reports_unique_win
      [some Mark.X, some Mark.X, some Mark.X, none, some Mark.O, none, none, some Mark.O, none]
      rfl).2
    (0, 1, 2) (by decide) Mark.X (by decide) (by decide)

/-- C10: on every board, even a malformed one with several completed lines,
`getWinningLine` is `null` exactly when `calculateWinner` is, and when both
are non-null the returned line is one of `WIN_LINES` and its three cells all
hold the returned mark. -/
theorem evaluators_agree (squares : Board) :
    (getWinningLine squares = none ↔ calculateWinner squares = none) ∧
    (∀ (m : Mark) (l : Nat × Nat × Nat),
      calculateWinner squares = some m → getWinningLine squares = some l →
      l ∈ WIN_LINES ∧ fullWith squares l m) := by
  have h := scans_agree squares WIN_LINES
  exact ⟨h.1, fun m l hm hl => h.2 m l hm hl⟩

/-- Witness for `evaluators_agree` at a concrete winning board. -/
theorem evaluators_agree_witness :
    (0, 1, 2) ∈ WIN_LINES ∧
      fullWith [some Mark.X, some Mark.X, some Mark.X, none, none, none, none, none, none]
        (0, 1, 2) Mark.X :=
  (evaluators_agree
      [some Mark.X, some Mark.X, some Mark.X, none, none, none, none, none, none]).2
    Mark.X (0, 1, 2) (by decide) (by decide)

/-- C7: on every 9-cell board, `isDraw` holds exactly when `calculateWinner`
reports no winner and all 9 cells are non-empty. -/
theorem isDraw_iff (squares : Board) (h9 : squares.length = 9) :
    isDraw squares = true ↔
      calculateWinner squares = none ∧ ∀ i < 9, cellAt squares i ≠ none := by
  rw [isDraw, Bool.and_eq_true, Option.isNone_iff_eq_none, List.all_eq_true]
  constructor
  · rintro ⟨hw, hall⟩
    refine ⟨hw, fun i hi => ?_⟩
    have hlt : i < squares.length := h9 ▸ hi
    rw [cellAt_of_lt hlt]
    have := hall squares[i] (squares.getElem_mem hlt)
    exact Option.isSome_iff_ne_none.mp (by simpa using this)
  · rintro ⟨hw, hall⟩
    refine ⟨hw, fun c hc => ?_⟩
    obtain ⟨i, hlt, hci⟩ := List.mem_iff_getElem.mp hc
    have hi : i < 9 := h9 ▸ hlt
    have := hall i hi
    rw [cellAt_of_lt hlt] at this
    simpa [hci] using Option.isSome_iff_ne_none.mpr (hci ▸ this)

/-- Witness for `isDraw_iff` at a full drawn board. -/
theorem isDraw_iff_witness :
    isDraw
        [some Mark.X, some Mark.X, some Mark.O, some Mark.O, some Mark.O, some Mark.X,
         some Mark.X, some Mark.O, some Mark.X] = true :=
  (isDraw_iff
      [some Mark.X, some Mark.X, some Mark.O, some Mark.O, some Mark.O, some Mark.X,
       some Mark.X, some Mark.O, some Mark.X]
      rfl).mpr ⟨by decide, by decide⟩

/-- C2 (counterexample): the claim also covers an index outside `[0,8]`, but
`handleCellClick` has no range check: clicking index 9 on a fresh board
appends a 10th cell and flips the turn, so the state does change. -/
theorem click_out_of_range_changes_state :
    handleCellClick
        { board := List.replicate 9 none, xIsNext := true,
          mode := Mode.pvp, isGameOver := false } 9 ≠
      { board := List.replicate 9 none, xIsNext := true,
        mode := Mode.pvp, isGameOver := false } := by
  decide

/-- C2 (amended): `handleCellClick` on a non-empty target cell, or while the
game-over flag is set, leaves the whole state unchanged. -/
theorem guarded_click_is_noop (s : AppState) (index : Nat)
    (h : s.isGameOver = true ∨ (cellAt s.board index).isSome = true) :
    handleCellClick s index = s := by
  rw [handleCellClick]
  rcases h with h | h <;> simp [h]

/-- Witness for `guarded_click_is_noop`: clicking the occupied cell 0. -/
theorem guarded_click_is_noop_witness :
    handleCellClick
        { board := [some Mark.X, none, none, none, none, none, none, none, none],
          xIsNext := false, mode := Mode.pvp, isGameOver := false } 0 =
      { board := [some Mark.X, none, none, none, none, none, none, none, none],
        xIsNext := false, mode := Mode.pvp, isGameOver := false } :=
  guarded_click_is_noop _ 0 (Or.inr (by decide))

/-- C3 (counterexample): a winning click still flips the turn.  On the board
`[X,X,_,O,O,_,_,_,_]` with X to move, clicking 2 makes the derived status
`Won X`, yet `xIsNext` becomes `false` instead of staying `true` as the claim
("the turn is not flipped when the move produces a Won or Draw status")
requires. -/
theorem winning_click_still_flips_turn :
    ¬ (gameStatus
          (handleCellClick
              { board := [some Mark.X, some Mark.X, none, some Mark.O, some Mark.O,
                          none, none, none, none],
                xIsNext := true, mode := Mode.pvp, isGameOver := false } 2).board ≠
          GameStatus.InProgress →
        (handleCellClick
            { board := [some Mark.X, some Mark.X, none, some Mark.O, some Mark.O,
                        none, none, none, none],
              xIsNext := true, mode := Mode.pvp, isGameOver := false } 2).xIsNext = true) := by
  decide

/-- C3 (amended): on an in-progress session (game-over flag clear), clicking
an empty in-range cell sets exactly that cell to the current turn's mark,
leaves every other cell unchanged, and always flips the turn; the game status
is then derived from the new board. -/
theorem valid_click_plays_and_flips (s : AppState) (index : Nat)
    (h9 : s.board.length = 9) (hidx : index < 9)
    (hgo : s.isGameOver = false) (hempty : cellAt s.board index = none) :
    handleCellClick s index =
      { s with
        board := s.board.set index (some (if s.xIsNext then Mark.X else Mark.O)),
        xIsNext := !s.xIsNext } ∧
    cellAt (handleCellClick s index).board index =
      some (if s.xIsNext then Mark.X else Mark.O) ∧
    (∀ j, j ≠ index → cellAt (handleCellClick s index).board j = cellAt s.board j) ∧
    (handleCellClick s index).xIsNext = !s.xIsNext := by
  have hlt : index < s.board.length := h9 ▸ hidx
  have hmain : handleCellClick s index =
      { s with
        board := s.board.set index (some (if s.xIsNext then Mark.X else Mark.O)),
        xIsNext := !s.xIsNext } := by
    rw [handleCellClick]
    simp [hgo, hempty, setJS_of_lt hlt]
  refine ⟨hmain, ?_, ?_, ?_⟩
  · rw [hmain]
    have : index < (s.board.set index (some (if s.xIsNext then Mark.X else Mark.O))).length := by
      simpa using hlt
    rw [cellAt_of_lt this]
    simp
  · intro j hj
    rw [hmain]
    simp only [cellAt, List.getD_eq_getElem?_getD]
    rw [List.getElem?_set_ne (fun h => hj h.symm)]
  · rw [hmain]

/-- Witness for `valid_click_plays_and_flips`: X plays cell 4 on a fresh
board. -/
theorem valid_click_plays_and_flips_witness :
    handleCellClick
        { board := List.replicate 9 none, xIsNext := true,
          mode := Mode.pvp, isGameOver := false } 4 =
      { board := (List.replicate 9 none : Board).set 4
          (some (if true then Mark.X else Mark.O)),
        xIsNext := !true, mode := Mode.pvp, isGameOver := false } ∧
    cellAt
        (handleCellClick
            { board := List.replicate 9 none, xIsNext := true,
              mode := Mode.pvp, isGameOver := false } 4).board 4 =
      some (if true then Mark.X else Mark.O) ∧
    (∀ j, j ≠ 4 →
      cellAt
          (handleCellClick
              { board := List.replicate 9 none, xIsNext := true,
                mode := Mode.pvp, isGameOver := false } 4).board j =
        cellAt (List.replicate 9 none) j) ∧
    (handleCellClick
        { board := List.replicate 9 none, xIsNext := true,
          mode := Mode.pvp, isGameOver := false } 4).xIsNext = !true :=
  valid_click_plays_and_flips
    { board := List.replicate 9 none, xIsNext := true,
      mode := Mode.pvp, isGameOver := false }
    4 rfl (by decide) rfl (by decide)

/-- C9: `restartGame` resets the board to 9 empty cells, the turn to X and
the game-over flag, keeping the mode; `switchMode` performs the same reset
while installing its argument as the mode; both leave the derived status
`InProgress`. -/
theorem reset_behavior (s : AppState) (m : Mode) :
    restartGame s =
      { board := List.replicate 9 none, xIsNext := true,
        mode := s.mode, isGameOver := false } ∧
    gameStatus (restartGame s).board = GameStatus.InProgress ∧
    switchMode s m =
      { board := List.replicate 9 none, xIsNext := true,
        mode := m, isGameOver := false } ∧
    gameStatus (switchMode s m).board = GameStatus.InProgress := by
  refine ⟨rfl, ?_, rfl, ?_⟩ <;>
    · show gameStatus (List.replicate 9 none) = GameStatus.InProgress
      decide

/-- C8 (code bug): a reachable player-vs-computer session in which the
automated side places a mark on a board already won by X.  Starting from
`switchMode('pvc')`, the human plays 0, 8, 6 (the AI answers 4, 2, 3) and
then wins with 7.  The effect pass that follows the winning click still sees
the stale `isGameOver = false` snapshot, so the AI effect runs and places O
at the empty cell 5 — on a board whose evaluator status is `Won X` — and the
scan order of `WIN_LINES` then even reports O as the winner of the final
board. -/
theorem ai_moves_on_won_board :
    switchMode
        { board := [], xIsNext := true, mode := Mode.pvp, isGameOver := false }
        Mode.pvc = pvcStart ∧
    buggyTraceState.isGameOver = false ∧
    calculateWinner buggyTraceState.board = some Mark.X ∧
    cellAt buggyTraceState.board 5 = none ∧
    cellAt (effectsStep buggyTraceState).board 5 = some Mark.O ∧
    calculateWinner (effectsStep buggyTraceState).board = some Mark.O := by
  decide

/-- C4 (counterexample): on the malformed board `[X,X,X,_,_,_,O,O,_]` the
empty cell 8 would complete the three-in-a-row `(6,7,8)` for O, yet
`chooseBestMove` returns 3, which completes no line for O: the win-now scan
compares `calculateWinner` against O, and on this board the scan always sees
X's earlier line `(0,1,2)` first. -/
theorem win_now_fails_on_malformed_board :
    completesLine
        [some Mark.X, some Mark.X, some Mark.X, none, none, none,
         some Mark.O, some Mark.O, none] Mark.O 8 ∧
    chooseBestMove
        [some Mark.X, some Mark.X, some Mark.X, none, none, none,
         some Mark.O, some Mark.O, none] Mark.O Mark.X = 3 ∧
    ¬ completesLine
        [some Mark.X, some Mark.X, some Mark.X, none, none, none,
         some Mark.O, some Mark.O, none] Mark.O 3 := by
  decide

/-- C4 (amended): whenever some empty cell's hypothetical `opponentMark`
placement makes `calculateWinner` report `opponentMark`, `chooseBestMove`
returns the lowest-index such cell. -/
theorem win_now_priority (squares : Board) (ai human : Mark)
    (h : ∃ i, i < 9 ∧ winningPlacement squares ai i) :
    ∃ j, chooseBestMove squares ai human = Int.ofNat j ∧ j < 9 ∧
      winningPlacement squares ai j ∧ ∀ k < j, ¬ winningPlacement squares ai k := by
  obtain ⟨i, hi, hwp⟩ := h
  have hsome : (findWinIdx squares ai).isSome := by
    simp only [findWinIdx]
    rw [List.find?_isSome]
    exact ⟨i, List.mem_range.mpr hi, (scanPred_iff squares ai i).mpr hwp⟩
  obtain ⟨j, hj⟩ := Option.isSome_iff_exists.mp hsome
  have hj' : ((List.range 9).find? fun k =>
      emptyAt squares k && (calculateWinner (setJS squares k (some ai)) == some ai)) = some j := by
    simpa only [findWinIdx] using hj
  have hpj := List.find?_some hj'
  refine ⟨j, by simp [chooseBestMove, hj],
    List.mem_range.mp (List.mem_of_find?_eq_some hj'),
    (scanPred_iff squares ai j).mp hpj, ?_⟩
  intro k hk hwpk
  have hfalse := range_find?_min hj' k hk
  rw [(scanPred_iff squares ai k).mpr hwpk] at hfalse
  exact Bool.true_eq_false.mp hfalse

/-- Witness for `win_now_priority`: O can win at cell 2 on `[O,O,_,...]`. -/
theorem win_now_priority_witness :
    ∃ j, chooseBestMove
          [some Mark.O, some Mark.O, none, none, none, none, none, none, none]
          Mark.O Mark.X = Int.ofNat j ∧ j < 9 ∧
      winningPlacement
        [some Mark.O, some Mark.O, none, none, none, none, none, none, none] Mark.O j ∧
      ∀ k < j, ¬ winningPlacement
        [some Mark.O, some Mark.O, none, none, none, none, none, none, none] Mark.O k :=
  win_now_priority _ _ Mark.X ⟨2, by decide, by decide⟩

/-- C5 (counterexample): on the malformed board `[O,O,O,_,_,_,X,X,_]` no
empty cell completes a three-in-a-row for O, and cell 8 is the unique empty
cell completing one for X, yet `chooseBestMove` returns 3, not the blocking
cell 8: the win-now scan already "wins" at the first empty cell because O's
pre-existing line `(0,1,2)` makes `calculateWinner` report O. -/
theorem block_fails_on_malformed_board :
    (∀ i < 9, ¬ completesLine
        [some Mark.O, some Mark.O, some Mark.O, none, none, none,
         some Mark.X, some Mark.X, none] Mark.O i) ∧
    completesLine
        [some Mark.O, some Mark.O, some Mark.O, none, none, none,
         some Mark.X, some Mark.X, none] Mark.X 8 ∧
    (∀ i < 9, completesLine
        [some Mark.O, some Mark.O, some Mark.O, none, none, none,
         some Mark.X, some Mark.X, none] Mark.X i → i = 8) ∧
    chooseBestMove
        [some Mark.O, some Mark.O, some Mark.O, none, none, none,
         some Mark.X, some Mark.X, none] Mark.O Mark.X = 3 := by
  decide

/-- C5 (amended): if no empty cell's hypothetical `opponentMark` placement
makes `calculateWinner` report `opponentMark`, and exactly one empty cell's
hypothetical `humanMark` placement makes it report `humanMark`, then
`chooseBestMove` returns that blocking cell. -/
theorem block_priority (squares : Board) (ai human : Mark)
    (hnowin : ∀ i < 9, ¬ winningPlacement squares ai i)
    (j : Nat) (hj : j < 9) (hblock : winningPlacement squares human j)
    (huniq : ∀ k < 9, winningPlacement squares human k → k = j) :
    chooseBestMove squares ai human = Int.ofNat j := by
  have hai : findWinIdx squares ai = none := by
    simp only [findWinIdx]
    rw [List.find?_eq_none]
    intro x hx hpx
    exact hnowin x (List.mem_range.mp hx) ((scanPred_iff squares ai x).mp hpx)
  have hhuman : findWinIdx squares human = some j := by
    simp only [findWinIdx]
    refine find?_eq_some_of_unique _ j (List.mem_range.mpr hj)
      ((scanPred_iff squares human j).mpr hblock) ?_
    intro x hx hpx
    exact huniq x (List.mem_range.mp hx) ((scanPred_iff squares human x).mp hpx)
  simp [chooseBestMove, hai, hhuman]

/-- Witness for `block_priority`: scenario 1 of the spec, O must block X at
cell 2 on `[X,X,_,...]`. -/
theorem block_priority_witness :
    chooseBestMove
        [some Mark.X, some Mark.X, none, none, none, none, none, none, none]
        Mark.O Mark.X = Int.ofNat 2 :=
  block_priority _ _ _ (by decide) 2 (by decide) (by decide) (by decide)

/-- Case analysis on the priority chain of `chooseBestMove`: the result is
`-1` or the index of an empty cell below 9. -/
theorem chooseBestMove_cases (squares : Board) (ai human : Mark) :
    chooseBestMove squares ai human = -1 ∨
      ∃ i, i < 9 ∧ emptyAt squares i = true ∧
        chooseBestMove squares ai human = Int.ofNat i := by
  cases hw : findWinIdx squares ai with
  | some i =>
    right
    have hw' : ((List.range 9).find? fun k =>
        emptyAt squares k && (calculateWinner (setJS squares k (some ai)) == some ai)) = some i := by
      simpa only [findWinIdx] using hw
    have hpi := List.find?_some hw'
    refine ⟨i, List.mem_range.mp (List.mem_of_find?_eq_some hw'),
      (Bool.and_eq_true_iff.mp hpi).1, by simp [chooseBestMove, hw]⟩
  | none =>
    cases hb : findWinIdx squares human with
    | some i =>
      right
      have hb' : ((List.range 9).find? fun k =>
          emptyAt squares k && (calculateWinner (setJS squares k (some human)) == some human)) = some i := by
        simpa only [findWinIdx] using hb
      have hpi := List.find?_some hb'
      refine ⟨i, List.mem_range.mp (List.mem_of_find?_eq_some hb'),
        (Bool.and_eq_true_iff.mp hpi).1, by simp [chooseBestMove, hw, hb]⟩
    | none =>
      by_cases hc : emptyAt squares 4 = true
      · exact Or.inr ⟨4, by omega, hc, by simp [chooseBestMove, hw, hb, hc]⟩
      · have hc' : emptyAt squares 4 = false := Bool.eq_false_iff.mpr hc
        cases hcor : [0, 2, 6, 8].filter (emptyAt squares) with
        | cons i t =>
          right
          have hmem : i ∈ [0, 2, 6, 8].filter (emptyAt squares) := by
            rw [hcor]; exact List.mem_cons_self i t
          obtain ⟨hmem48, hempty⟩ := List.mem_filter.mp hmem
          have hi9 : i < 9 := by
            have : i = 0 ∨ i = 2 ∨ i = 6 ∨ i = 8 := by simpa using hmem48
            omega
          exact ⟨i, hi9, hempty, by simp [chooseBestMove, hw, hb, hc', hcor]⟩
        | nil =>
          cases hsid : [1, 3, 5, 7].filter (emptyAt squares) with
          | cons i t =>
            right
            have hmem : i ∈ [1, 3, 5, 7].filter (emptyAt squares) := by
              rw [hsid]; exact List.mem_cons_self i t
            obtain ⟨hmem1357, hempty⟩ := List.mem_filter.mp hmem
            have hi9 : i < 9 := by
              have : i = 1 ∨ i = 3 ∨ i = 5 ∨ i = 7 := by simpa using hmem1357
              omega
            exact ⟨i, hi9, hempty, by simp [chooseBestMove, hw, hb, hc', hcor, hsid]⟩
          | nil =>
            left
            simp [chooseBestMove, hw, hb, hc', hcor, hsid]

/-- A `-1` result means every cell 0..8 is occupied. -/
theorem chooseBestMove_neg_one_forces_full (squares : Board) (ai human : Mark)
    (hres : chooseBestMove squares ai human = -1) :
    ∀ i < 9, emptyAt squares i = false := by
  intro i hi
  cases hw : findWinIdx squares ai with
  | some k => simp [chooseBestMove, hw] at hres
  | none =>
  cases hb : findWinIdx squares human with
  | some k => simp [chooseBestMove, hw, hb] at hres
  | none =>
  by_cases hc : emptyAt squares 4 = true
  · simp [chooseBestMove, hw, hb, hc] at hres
  · have hc' : emptyAt squares 4 = false := Bool.eq_false_iff.mpr hc
    cases hcor : [0, 2, 6, 8].filter (emptyAt squares) with
    | cons k t => simp [chooseBestMove, hw, hb, hc', hcor] at hres
    | nil =>
    cases hsid : [1, 3, 5, 7].filter (emptyAt squares) with
    | cons k t => simp [chooseBestMove, hw, hb, hc', hcor, hsid] at hres
    | nil =>
      have h0278 := List.filter_eq_nil_iff.mp hcor
      have h1357 := List.filter_eq_nil_iff.mp hsid
      interval_cases i
      · exact Bool.eq_false_iff.mpr (h0278 0 (by decide))
      · exact Bool.eq_false_iff.mpr (h1357 1 (by decide))
      · exact Bool.eq_false_iff.mpr (h0278 2 (by decide))
      · exact Bool.eq_false_iff.mpr (h1357 3 (by decide))
      · exact hc'
      · exact Bool.eq_false_iff.mpr (h1357 5 (by decide))
      · exact Bool.eq_false_iff.mpr (h0278 6 (by decide))
      · exact Bool.eq_false_iff.mpr (h1357 7 (by decide))
      · exact Bool.eq_false_iff.mpr (h0278 8 (by decide))

/-- C6: on every 9-cell board `chooseBestMove` never returns the index of an
occupied cell, returns `-1` exactly when no cell is empty, and returns the
index of some empty cell whenever one exists. -/
theorem chooseBestMove_safe (squares : Board) (ai human : Mark)
    (_h9 : squares.length = 9) :
    (chooseBestMove squares ai human = -1 ↔ ∀ i < 9, emptyAt squares i = false) ∧
    (∀ i : Nat, chooseBestMove squares ai human = Int.ofNat i → emptyAt squares i = true) ∧
    ((∃ i, i < 9 ∧ emptyAt squares i = true) →
      ∃ i, i < 9 ∧ emptyAt squares i = true ∧
        chooseBestMove squares ai human = Int.ofNat i) := by
  refine ⟨⟨chooseBestMove_neg_one_forces_full squares ai human, ?_⟩, ?_, ?_⟩
  · intro hfull
    have hai : findWinIdx squares ai = none := by
      simp only [findWinIdx]
      rw [List.find?_eq_none]
      intro x hx
      simp [hfull x (List.mem_range.mp hx)]
    have hhuman : findWinIdx squares human = none := by
      simp only [findWinIdx]
      rw [List.find?_eq_none]
      intro x hx
      simp [hfull x (List.mem_range.mp hx)]
    have hc : emptyAt squares 4 = false := hfull 4 (by omega)
    have hcor : [0, 2, 6, 8].filter (emptyAt squares) = [] := by
      rw [List.filter_eq_nil_iff]
      intro a ha
      have ha9 : a < 9 := by
        have : a = 0 ∨ a = 2 ∨ a = 6 ∨ a = 8 := by simpa using ha
        omega
      simp [hfull a ha9]
    have hsid : [1, 3, 5, 7].filter (emptyAt squares) = [] := by
      rw [List.filter_eq_nil_iff]
      intro a ha
      have ha9 : a < 9 := by
        have : a = 1 ∨ a = 3 ∨ a = 5 ∨ a = 7 := by simpa using ha
        omega
      simp [hfull a ha9]
    simp [chooseBestMove, hai, hhuman, hc, hcor, hsid]
  · intro i hres
    rcases chooseBestMove_cases squares ai human with h1 | ⟨i', _, hemp', hres'⟩
    · rw [hres] at h1
      have h1' : (i : Int) = -1 := by exact_mod_cast h1
      exact absurd h1' (by omega)
    · rw [hres] at hres'
      have heq : i = i' := Int.ofNat.inj hres'
      exact heq ▸ hemp'
  · rintro ⟨i, hi, hemp⟩
    rcases chooseBestMove_cases squares ai human with h1 | h
    · have := chooseBestMove_neg_one_forces_full squares ai human h1 i hi
      rw [hemp] at this
      exact absurd this (by simp)
    · exact h

/-- Witness for `chooseBestMove_safe` on the empty board: the move is the
index of an empty cell. -/
theorem chooseBestMove_safe_witness :
    ∃ i, i < 9 ∧ emptyAt (List.replicate 9 none) i = true ∧
      chooseBestMove (List.replicate 9 none) Mark.O Mark.X = Int.ofNat i :=
  (chooseBestMove_safe (List.replicate 9 none) Mark.O Mark.X rfl).2.2
    ⟨4, by decide, by decide⟩

end TicTacToe
